import Mathlib

/-!
Verification of the rune bytecode-compiler core against its specification.

The development shallowly embeds the two source files of the repository:

* `crates/rune/src/runtime/stack.rs` — the VM evaluation stack (`Stack`,
  `at`, `at_mut`, `slice_at`, `slice_at_mut`, `swap`, `swap_top`,
  `pop_stack_top`).
* `crates/rune/src/compile/v1/assemble.rs` — a fragment of the HIR-to-
  instruction lowering (`expr`, `block_without_scope`, `expr_break`,
  `expr_continue`, `expr_return`, binary short-circuit lowering, the pattern
  binding machinery, and `call_const_fn`).

Machine integers (`usize`) are modelled as `Nat` with an explicit bound
`USIZE_MAX = 2 ^ 64 - 1` (64-bit target); `checked_add` is modelled by
`checkedAdd`.  Fallible Rust functions returning `Result` are embedded as
`Except`-valued Lean functions; `&mut self` receivers become explicit state
passing.  Collaborator types that live outside the two source files
(`InstAddress`, `Needs`, `Scopes`, the assembly buffer, loop records, the
constant-function interpreter) are modelled from the specification; each such
definition says so in its doc comment.
-/

namespace Rune

/-- Largest value of `usize` on the 64-bit targets the stack code assumes. -/
def USIZE_MAX : Nat := 2 ^ 64 - 1

/-- Embeds `usize::checked_add`: `none` exactly when the sum overflows. -/
def checkedAdd (a b : Nat) : Option Nat :=
  if a + b ≤ USIZE_MAX then some (a + b) else none

/-- Modelled from the spec: an `InstAddress` (runtime `InstAddress`, outside
`src/`) is a non-negative integer offset relative to the current frame base. -/
structure InstAddress where
  offset : Nat
deriving DecidableEq

/-- Embeds `StackError` (stack.rs:14): the address that failed to resolve. -/
structure StackError where
  addr : InstAddress
deriving DecidableEq

/-- Embeds `SliceError` (stack.rs:28). -/
structure SliceError where
  addr : InstAddress
  len : Nat
  stack : Nat
deriving DecidableEq

/-- Embeds the `VmErrorKind` variants reachable from `swap_top`; allocation
failures (`try_reserve`) are not modelled. -/
inductive VmErrorKind where
  | stackError (error : StackError)
deriving DecidableEq

/-- Embeds `Stack` (stack.rs:54): the value vector and the `top` cursor that
marks the base of the current call frame.  Values are abstract (`α`). -/
structure Stack (α : Type) where
  stack : List α
  top : Nat
deriving DecidableEq

/-- Embeds `Stack::len` (stack.rs:155). -/
def Stack.len (s : Stack α) : Nat := s.stack.length

/-- Embeds `Stack::at` (stack.rs:279): `top.checked_add(offset)` then a
bounds-checked read, with `StackError { addr }` on failure.  Named `atAddr`
because `at` is a Lean keyword. -/
def Stack.atAddr (s : Stack α) (addr : InstAddress) : Except StackError α :=
  match checkedAdd s.top addr.offset with
  | some n =>
    match s.stack.get? n with
    | some v => .ok v
    | none => .error ⟨addr⟩
  | none => .error ⟨addr⟩

/-- Embeds `Stack::at_mut` (stack.rs:305).  The mutable reference is modelled
as applying `f` at the resolved index; the success and failure conditions are
exactly those of the source. -/
def Stack.atMut (s : Stack α) (addr : InstAddress) (f : α → α) :
    Except StackError (Stack α) :=
  match checkedAdd s.top addr.offset with
  | some n =>
    match s.stack.get? n with
    | some v => .ok { s with stack := s.stack.set n (f v) }
    | none => .error ⟨addr⟩
  | none => .error ⟨addr⟩

/-- Embeds `inner_slice_at` (stack.rs:398).  `values.get(start..end)` in Rust
yields a window exactly when `start ≤ end ∧ end ≤ values.len()`; the window is
`values[start..end]`. -/
def innerSliceAt (values : List α) (top : Nat) (addr : InstAddress) (len : Nat) :
    Option (List α) :=
  if len = 0 then some []
  else
    (checkedAdd top addr.offset).bind fun start =>
      (checkedAdd start len).bind fun e =>
        if start ≤ e ∧ e ≤ values.length then some ((values.drop start).take len)
        else none

/-- Embeds `inner_slice_at_mut` (stack.rs:409), whose body parallels
`inner_slice_at`; the mutable window is modelled as the same selected
sublist. -/
def innerSliceAtMut (values : List α) (top : Nat) (addr : InstAddress) (len : Nat) :
    Option (List α) :=
  if len = 0 then some []
  else
    (checkedAdd top addr.offset).bind fun start =>
      (checkedAdd start len).bind fun e =>
        if start ≤ e ∧ e ≤ values.length then some ((values.drop start).take len)
        else none

/-- Embeds `slice_error` (stack.rs:425); `saturating_sub` on `Nat` is
truncated subtraction. -/
def sliceError (stack bottom : Nat) (addr : InstAddress) (len : Nat) : SliceError :=
  ⟨addr, len, stack - bottom⟩

/-- Embeds `Stack::slice_at` (stack.rs:214). -/
def Stack.sliceAt (s : Stack α) (addr : InstAddress) (len : Nat) :
    Except SliceError (List α) :=
  match innerSliceAt s.stack s.top addr len with
  | some sl => .ok sl
  | none => .error (sliceError s.stack.length s.top addr len)

/-- Embeds `Stack::slice_at_mut` (stack.rs:225). -/
def Stack.sliceAtMut (s : Stack α) (addr : InstAddress) (len : Nat) :
    Except SliceError (List α) :=
  match innerSliceAtMut s.stack s.top addr len with
  | some sl => .ok sl
  | none => .error (sliceError s.stack.length s.top addr len)

/-- Embeds `Stack::swap` (stack.rs:313): early `Ok` when the two addresses are
equal, then two bounds-checked resolutions (`checked_add` + `filter`, written
out as matches and a dependent `if` so the in-bounds proof is available) and
the element swap. -/
def Stack.swap (s : Stack α) (a b : InstAddress) : Except StackError (Stack α) :=
  if a = b then .ok s
  else
    match checkedAdd s.top a.offset with
    | none => .error ⟨a⟩
    | some ia =>
      if ha : ia < s.stack.length then
        match checkedAdd s.top b.offset with
        | none => .error ⟨b⟩
        | some ib =>
          if hb : ib < s.stack.length then
            .ok { s with
                  stack := (s.stack.set ia (s.stack.get ⟨ib, hb⟩)).set ib
                    (s.stack.get ⟨ia, ha⟩) }
          else .error ⟨b⟩
      else .error ⟨a⟩

/-- Embeds `Stack::swap_top` (stack.rs:341).  With `len = 0` it returns the
old top immediately and sets the frame base to the current length.  Otherwise
it checks `top + offset` and `old_len + len` for overflow, requires
`start + len ≤ old_len`, appends clones of `stack[start..start+len]` to the
end, and swaps in the new frame base.  Allocation failure of `try_reserve` is
not modelled. -/
def Stack.swapTop (s : Stack α) (addr : InstAddress) (len : Nat) :
    Except VmErrorKind (Nat × Stack α) :=
  let old_len := s.stack.length
  if len = 0 then .ok (s.top, { s with top := old_len })
  else
    match checkedAdd s.top addr.offset with
    | none => .error (.stackError ⟨addr⟩)
    | some start =>
      match checkedAdd old_len len with
      | none => .error (.stackError ⟨addr⟩)
      | some _new_len =>
        if old_len < start + len then .error (.stackError ⟨addr⟩)
        else
          .ok (s.top,
            { stack := s.stack ++ (s.stack.drop start).take len, top := old_len })

/-- Embeds `Stack::pop_stack_top` (stack.rs:389).  The body only truncates the
value vector to the current frame base and installs the given top; its
`alloc::Result` is always `Ok`, so the embedding is total.  Note that despite
its doc comment the source contains no assertion that the current frame is
empty. -/
def Stack.popStackTop (s : Stack α) (top : Nat) : Stack α :=
  { stack := s.stack.take s.top, top := top }

/-- Modelled from the spec: HIR names (`hir::Name`, outside `src/`),
identified by numbers. -/
abbrev Name := Nat

/-- Modelled from the spec (§3): an instruction `Output` either names an
address to write to or discards the value. -/
inductive Output where
  | addr (a : InstAddress)
  | discard
deriving DecidableEq

/-- Modelled from the spec: literal values materialized by store instructions
(fragment: unit, booleans, integers). -/
inductive InstValue where
  | unit
  | bool (b : Bool)
  | integer (v : Int)
deriving DecidableEq

/-- Modelled from the spec: the binary `Op` codes used by the fragment. -/
inductive InstOp where
  | and
  | or
  | add
  | eq
deriving DecidableEq

/-- Modelled from the spec (§3): the instruction variants the embedded
fragment of `assemble.rs` emits.  Jump targets are label ids. -/
inductive Inst where
  | store (value : InstValue) (out : Output)
  | copy (addr : InstAddress) (out : Output)
  | op (op : InstOp) (a b : InstAddress) (out : Output)
  | jump (label : Nat)
  | jumpIf (cond : InstAddress) (label : Nat)
  | jumpIfNot (cond : InstAddress) (label : Nat)
  | drop (addr : InstAddress)
  | ret (addr : InstAddress)
  | retUnit
  | panic
  | isUnit (addr : InstAddress) (out : Output)
  | eqBool (addr : InstAddress) (value : Bool) (out : Output)
  | eqInteger (addr : InstAddress) (value : Int) (out : Output)
  | matchType (hash : Nat) (addr : InstAddress) (out : Output)
  | matchSequence (len : Nat) (exact : Bool) (addr : InstAddress) (out : Output)
  | tupleIndexGetAt (addr : InstAddress) (index : Nat) (out : Output)
deriving DecidableEq

/-- Embeds `Inst::unit(out)`: a unit store. -/
def Inst.unitStore (out : Output) : Inst := .store .unit out

/-- Modelled from the spec (§7): the structured compile error kinds reachable
from the fragment.  `unboundNames` is the kind the spec attributes to the
unconsumed-bindings check; the theorems for C6 show the source never produces
it. -/
inductive ErrorKind where
  | breakOutsideOfLoop
  | continueOutsideOfLoop
  | unsupportedBinaryOp
  | unsupportedPatternExpr
  | unsupportedArgumentCount (expected actual : Nat)
  | unboundNames (names : List Name)
deriving DecidableEq

/-- Embeds `compile::Error`: either a structured kind (`compile::Error::new`)
or one of the ad-hoc message errors (`compile::Error::msg`) the source
produces, with the data interpolated into the message text carried as
payload.  Spans are dropped throughout the embedding.  `recursionLimit` is an
artifact of the fuelled embedding of the mutually recursive lowering
functions and corresponds to no source error. -/
inductive CErr where
  | kind (k : ErrorKind)
  | msgUnboundNames (names : List Name)
  | msgNoBinding (name : Name)
  | msgExpectedAddress
  | msgNeedPopulated
  | msgMissingContext
  | msgDuplicateBinding (name : Name)
  | labelPlacedTwice (label : Nat)
  | missingLabel (name : Name)
  | scopeMismatch
  | recursionLimit
deriving DecidableEq

/-- Modelled from the spec (§4.5): the assembly buffer appends instructions,
mints label ids, and records label placements (label id ↦ instruction
offset).  Diagnostic label names are dropped. -/
structure AsmBuffer where
  insts : List Inst
  nextLabel : Nat
  placed : List (Nat × Nat)
deriving DecidableEq

/-- Modelled from the spec: append an instruction (allocation failure not
modelled). -/
def AsmBuffer.push (asm : AsmBuffer) (i : Inst) : AsmBuffer :=
  { asm with insts := asm.insts ++ [i] }

/-- Modelled from the spec: reserve a fresh label id. -/
def AsmBuffer.newLabel (asm : AsmBuffer) : Nat × AsmBuffer :=
  (asm.nextLabel, { asm with nextLabel := asm.nextLabel + 1 })

/-- Modelled from the spec: place a label at the current offset; fails if the
label was placed before. -/
def AsmBuffer.place (asm : AsmBuffer) (label : Nat) : Except CErr AsmBuffer :=
  if asm.placed.any (fun p => p.1 = label) then .error (.labelPlacedTwice label)
  else .ok { asm with placed := asm.placed ++ [(label, asm.insts.length)] }

/-- Modelled from the spec: emit an unconditional jump to a label. -/
def AsmBuffer.jump (asm : AsmBuffer) (label : Nat) : AsmBuffer :=
  asm.push (.jump label)

/-- Modelled from the spec: emit a conditional jump taken on a true value. -/
def AsmBuffer.jumpIf (asm : AsmBuffer) (cond : InstAddress) (label : Nat) : AsmBuffer :=
  asm.push (.jumpIf cond label)

/-- Modelled from the spec: emit a conditional jump taken on a false value. -/
def AsmBuffer.jumpIfNot (asm : AsmBuffer) (cond : InstAddress) (label : Nat) : AsmBuffer :=
  asm.push (.jumpIfNot cond label)

/-- Modelled from the spec (§4.1): the scope allocator.  Addresses are handed
out by a bump counter; a child scope snapshots the counter and popping it
restores the snapshot (LIFO reclamation).  Name definitions are kept flat
because the fragment never reads them back; individual frees return their
addresses only when the owning scope is popped. -/
structure Scopes where
  next : Nat
  frames : List (Nat × Nat)
  nextScope : Nat
  defs : List (Name × InstAddress)
deriving DecidableEq

/-- Modelled from the spec: allocate a fresh address in the current scope. -/
def Scopes.alloc (sc : Scopes) : InstAddress × Scopes :=
  (⟨sc.next⟩, { sc with next := sc.next + 1 })

/-- Modelled from the spec: open a child scope; the new scope becomes
current. -/
def Scopes.child (sc : Scopes) : Nat × Scopes :=
  (sc.nextScope,
    { sc with
      frames := (sc.nextScope, sc.next) :: sc.frames
      nextScope := sc.nextScope + 1 })

/-- Modelled from the spec: popping asserts the scope is current and restores
the address counter; drops owed by retained values are not modelled. -/
def Scopes.pop (sc : Scopes) (id : Nat) : Except CErr Scopes :=
  match sc.frames with
  | (current, saved) :: rest =>
    if current = id then .ok { sc with next := saved, frames := rest }
    else .error .scopeMismatch
  | [] => .error .scopeMismatch

/-- Modelled from the spec: reserve `n` contiguous addresses. -/
def Scopes.linear (sc : Scopes) (n : Nat) : List InstAddress × Scopes :=
  ((List.range n).map (fun i => ⟨sc.next + i⟩), { sc with next := sc.next + n })

/-- Modelled from the spec: bind a name to an address in the current scope. -/
def Scopes.define (sc : Scopes) (name : Name) (addr : InstAddress) : Scopes :=
  { sc with defs := (name, addr) :: sc.defs }

/-- Modelled from the spec (§4.2): the three-state needs sink.  `assigned`
covers both the source's `Needs::Local` and `NeedsAddress` (an address is
already chosen); `allocatable` is not yet bound to an address. -/
inductive Needs where
  | none
  | assigned (addr : InstAddress)
  | allocatable
deriving DecidableEq

/-- Modelled from the spec: `as_address` peeks without allocating. -/
def Needs.asAddr : Needs → Option InstAddress
  | .assigned a => some a
  | _ => Option.none

/-- Modelled from the spec: `value()` is true iff a value is required. -/
def Needs.value : Needs → Bool
  | .none => false
  | _ => true

/-- Modelled from the spec: `try_alloc_addr` allocates on first demand for
`allocatable`, returns the chosen address for `assigned`, and nothing for a
discarding needs. -/
def Needs.tryAllocAddr : Needs → Scopes → Option InstAddress × Needs × Scopes
  | .none, sc => (Option.none, .none, sc)
  | .assigned a, sc => (some a, .assigned a, sc)
  | .allocatable, sc =>
    let (a, sc) := sc.alloc
    (some a, .assigned a, sc)

/-- Modelled from the spec: `alloc_output`; a discarding needs elides the
value with `Output.discard`. -/
def Needs.allocOutput : Needs → Scopes → Output × Needs × Scopes
  | .none, sc => (.discard, .none, sc)
  | .assigned a, sc => (.addr a, .assigned a, sc)
  | .allocatable, sc =>
    let (a, sc) := sc.alloc
    (.addr a, .assigned a, sc)

/-- Modelled from the spec: `try_alloc_output`. -/
def Needs.tryAllocOutput : Needs → Scopes → Option Output × Needs × Scopes
  | .none, sc => (Option.none, .none, sc)
  | .assigned a, sc => (some (.addr a), .assigned a, sc)
  | .allocatable, sc =>
    let (a, sc) := sc.alloc
    (some (.addr a), .assigned a, sc)

/-- Modelled from the spec: `assign_address` ensures the needs is bound and
emits a copy when the chosen destination differs from the source; an
`allocatable` needs adopts the source address. -/
def Needs.assignAddr (n : Needs) (asm : AsmBuffer) (src : InstAddress) :
    Needs × AsmBuffer :=
  match n with
  | .none => (.none, asm)
  | .assigned a =>
    (.assigned a, if a = src then asm else asm.push (.copy src (.addr a)))
  | .allocatable => (.assigned src, asm)

/-- Modelled from the spec (§3, loop record): the optional loop label, the
continue and break labels, the declared output address if the loop is used as
an expression, and the optional drop-on-exit (iterator) address. -/
structure Loop where
  label : Option Name
  continueLabel : Nat
  breakLabel : Nat
  output : Option InstAddress
  drop : Option InstAddress
deriving DecidableEq

/-- Embeds the `Ctxt` fields the fragment uses (assemble.rs:152): the
assembly, the scope allocator, the loop stack (innermost first, the reverse
of the source's `Vec` order) and the warning-context depth.  The query system
and the diagnostics sink are dropped. -/
structure Ctxt where
  asm : AsmBuffer
  scopes : Scopes
  loops : List Loop
  contexts : Nat
deriving DecidableEq

/-- A minimal lowering context: empty assembly, fresh allocator, no loops. -/
def Ctxt.initial : Ctxt := ⟨⟨[], 0, []⟩, ⟨0, [], 0, []⟩, [], 0⟩

/-- A context inside one anonymous loop with continue label 0 and break
label 1 and no output or drop address, as `expr_loop` would set up. -/
def Ctxt.inLoop : Ctxt :=
  ⟨⟨[], 2, []⟩, ⟨0, [], 0, []⟩, [⟨Option.none, 0, 1, Option.none, Option.none⟩], 0⟩

/-- A context inside one anonymous loop that has an output address 5 and a
recorded drop-on-exit (iterator) address 7. -/
def Ctxt.inLoopFull : Ctxt :=
  ⟨⟨[], 2, []⟩, ⟨0, [], 0, []⟩, [⟨Option.none, 0, 1, some ⟨5⟩, some ⟨7⟩⟩], 0⟩

/-- A context inside two nested loops with distinct output addresses: the
innermost is anonymous with output address 21 (continue label 0, break
label 1), the outer is labeled 5 with output address 22 (continue label 2,
break label 3).  Neither records a drop-on-exit address. -/
def Ctxt.inTwoLoops : Ctxt :=
  ⟨⟨[], 4, []⟩, ⟨0, [], 0, []⟩,
    [⟨Option.none, 0, 1, some ⟨21⟩, Option.none⟩,
     ⟨some 5, 2, 3, some ⟨22⟩, Option.none⟩], 0⟩

/-- Modelled from the spec (§4.3 Break/Continue): walk the loop stack from
the innermost loop towards the targeted label, collecting the drop-on-exit
address of every loop visited, the target included. -/
def walkUntilLabel : List Loop → Name → Except CErr (Loop × List InstAddress)
  | [], n => .error (.missingLabel n)
  | l :: rest, n =>
    if l.label = some n then .ok (l, l.drop.toList)
    else
      match walkUntilLabel rest n with
      | .ok (t, ds) => .ok (t, l.drop.toList ++ ds)
      | .error e => .error e

/-- Embeds `hir::Lit` restricted to the fragment. -/
inductive Lit where
  | bool (b : Bool)
  | integer (v : Int)
deriving DecidableEq

/-- Embeds `ast::BinOp` restricted to the fragment; `&&` and `||` are the
conditional operators. -/
inductive BinOp where
  | and
  | or
  | add
  | eq
deriving DecidableEq

/-- Embeds `BinOp::is_assign` on the fragment operators: none of them is an
assignment operator. -/
def BinOp.isAssign : BinOp → Bool := fun _ => false

/-- Embeds `BinOp::is_conditional`: true exactly for `&&` and `||`. -/
def BinOp.isConditional : BinOp → Bool
  | .and => true
  | .or => true
  | _ => false

/-- Embeds `hir::PatSequenceKind` restricted to the fragment: type matches
and anonymous sequences with a tuple type check. -/
inductive PatSequenceKind where
  | typeOf (hash : Nat)
  | anonymous (count : Nat) (isOpen : Bool)
deriving DecidableEq

/-- Embeds `hir::PatPathKind`. -/
inductive PatPathKind where
  | kind (k : PatSequenceKind)
  | ident (name : Name)
deriving DecidableEq

/-- Embeds `hir::Pat` restricted to the fragment (object patterns are left
out).  The source stores a full expression under `PatKind::Lit` and rejects
non-literal kinds with `UnsupportedPatternExpr`; the fragment stores the
literal directly. -/
inductive Pat where
  | ignore
  | path (k : PatPathKind)
  | lit (l : Lit)
  | sequence (kind : PatSequenceKind) (items : List Pat)

/-- Embeds `hir::PatBinding`: a pattern together with the names it
declares. -/
structure PatBinding where
  pat : Pat
  names : List Name

mutual
/-- Embeds `hir::ExprKind` restricted to the fragment. -/
inductive Expr where
  | lit (l : Lit)
  | binary (op : BinOp) (lhs rhs : Expr)
  | breakE (label : Option Name) (value : Option Expr)
  | continueE (label : Option Name)
  | returnE (value : Option Expr)
  | blockE (b : Block)

/-- Embeds `hir::Block`. -/
inductive Block where
  | mk (statements : List Stmt) (value : Option Expr)

/-- Embeds `hir::Stmt`. -/
inductive Stmt where
  | localS (l : LocalHir)
  | exprS (e : Expr)

/-- Embeds `hir::Local`. -/
inductive LocalHir where
  | mk (pat : PatBinding) (expr : Expr)
end

/-- Statements of a block. -/
def Block.statements : Block → List Stmt
  | .mk s _ => s

/-- Optional trailing value expression of a block. -/
def Block.value : Block → Option Expr
  | .mk _ v => v

/-- Pattern of a local binding. -/
def LocalHir.pat : LocalHir → PatBinding
  | .mk p _ => p

/-- Initializer of a local binding. -/
def LocalHir.expr : LocalHir → Expr
  | .mk _ e => e

/-- A `load` callback of the pattern machinery: writes the scrutinee into the
given needs (assemble.rs:462). -/
def Load := Ctxt → Needs → Except CErr (Ctxt × Needs)

/-- State of the pattern machinery.  The source threads a
`BTreeMap<Name, &mut dyn NeedsLike>`; mutation through the map is modelled by
keeping the current `Needs` value in `remaining`, and entries removed by
`PatKind::Ident` move, with their post-`load` state, into `consumed` so that
callers can observe the final state of the needs they lent to the map. -/
structure PatState where
  cx : Ctxt
  remaining : List (Name × Needs)
  consumed : List (Name × Needs)

/-- Remove the first entry with the given key from an association list,
returning its value and the remaining entries (`BTreeMap::remove`). -/
def removeEntry : List (Name × Needs) → Name → Option (Needs × List (Name × Needs))
  | [], _ => Option.none
  | (k, v) :: rest, n =>
    if k = n then some (v, rest)
    else
      match removeEntry rest n with
      | some (w, rest2) => some (w, (k, v) :: rest2)
      | Option.none => Option.none

/-- Embeds `pat_lit_inst` (assemble.rs:630) on the fragment literals, for
which it always yields an instruction. -/
def patLitInst (l : Lit) (addr cond : InstAddress) : Inst :=
  match l with
  | .bool v => .eqBool addr v (.addr cond)
  | .integer v => .eqInteger addr v (.addr cond)

/-- Embeds `pat_sequence_kind_to_inst` (assemble.rs:775) on the fragment
kinds. -/
def patSequenceKindToInst (kind : PatSequenceKind) (addr : InstAddress)
    (out : Output) : Inst :=
  match kind with
  | .typeOf hash => .matchType hash addr out
  | .anonymous count isOpen => .matchSequence count (!isOpen) addr out

mutual
/-- Embeds `pat` (assemble.rs:549) on the fragment pattern kinds, including
`pat_lit` (assemble.rs:601) and `pat_sequence` (assemble.rs:713).  Returns
whether the false label was used. -/
def pat (st : PatState) (hir : Pat) (falseLabel : Nat) (load : Load) :
    Except CErr (PatState × Bool) :=
  match hir with
  | .ignore => do
    let (cx, _) ← load st.cx .none
    .ok ({ st with cx }, false)
  | .path (.kind k) => do
    let (cx, needs) ← load st.cx .allocatable
    match needs.asAddr with
    | Option.none => .ok ({ st with cx }, false)
    | some a =>
      let asm := (cx.asm.push (patSequenceKindToInst k a (.addr a))).jumpIfNot a falseLabel
      .ok ({ st with cx := { cx with asm } }, true)
  | .path (.ident name) =>
    match removeEntry st.remaining name with
    | Option.none => .error (.msgNoBinding name)
    | some (binding, remaining) => do
      let (cx, binding) ← load st.cx binding
      .ok ({ cx := cx, remaining := remaining,
             consumed := st.consumed ++ [(name, binding)] }, false)
  | .lit l => do
    let (cx, needs) ← load st.cx .allocatable
    match needs.asAddr with
    | Option.none => .error .msgExpectedAddress
    | some addr =>
      let (cond, scopes) := cx.scopes.alloc
      let asm := (cx.asm.push (patLitInst l addr cond)).jumpIfNot cond falseLabel
      .ok ({ st with cx := { cx with asm, scopes } }, true)
  | .sequence kind items => do
    let (cx, needs) ← load st.cx .allocatable
    match needs.asAddr with
    | Option.none => .ok ({ st with cx }, false)
    | some addr =>
      if kind = .anonymous 0 false then
        let asm := (cx.asm.push (.isUnit addr (.addr addr))).jumpIfNot addr falseLabel
        .ok ({ st with cx := { cx with asm } }, true)
      else
        let (cond, scopes) := cx.scopes.alloc
        let asm :=
          (cx.asm.push (patSequenceKindToInst kind addr (.addr cond))).jumpIfNot cond
            falseLabel
        let st ← patItems { st with cx := { cx with asm, scopes } } addr 0 items
          falseLabel
        .ok (st, true)

/-- The positional loop of `pat_sequence`: child `i` of the sequence at
`addr` is loaded with `TupleIndexGetAt(addr, i)` into the child's needs. -/
def patItems (st : PatState) (addr : InstAddress) (index : Nat) (items : List Pat)
    (falseLabel : Nat) : Except CErr PatState :=
  match items with
  | [] => .ok st
  | p :: rest => do
    let childLoad : Load := fun cx n =>
      let (out, n, scopes) := n.allocOutput cx.scopes
      .ok ({ cx with scopes, asm := cx.asm.push (.tupleIndexGetAt addr index out) }, n)
    let (st, _) ← pat st p falseLabel childLoad
    patItems st addr (index + 1) rest falseLabel
end

/-- Build the bindings map of `pat_binding_with` by successive insertions,
failing on a duplicate name as `BTreeMap::try_insert` does. -/
def insertBindings (acc : List (Name × Needs)) :
    List (Name × Needs) → Except CErr (List (Name × Needs))
  | [] => .ok acc
  | (n, v) :: rest =>
    if acc.any (fun p => p.1 = n) then .error (.msgDuplicateBinding n)
    else insertBindings (acc ++ [(n, v)]) rest

/-- Embeds `pat_binding_with` (assemble.rs:469): build the bindings map from
the names and the linear run, dispatch the pattern, fail if any binding was
left unconsumed, then define every name at its linear address.  The source
formats `bindings.keys()` (in `BTreeMap` key order) into a message error; the
embedding carries the remaining names in residual order. -/
def patBindingWith (cx : Ctxt) (p : Pat) (names : List Name) (falseLabel : Nat)
    (load : Load) (linear : List InstAddress) : Except CErr (Ctxt × Bool) := do
  let bindings ← insertBindings [] (names.zip (linear.map Needs.assigned))
  let (st, bound) ← pat ⟨cx, bindings, []⟩ p falseLabel load
  if st.remaining.isEmpty then
    let scopes := (names.zip linear).foldl (fun sc q => sc.define q.1 q.2) st.cx.scopes
    .ok ({ st.cx with scopes }, bound)
  else .error (.msgUnboundNames (st.remaining.map Prod.fst))

/-- Embeds `pat_binding_with_single` (assemble.rs:507).  The caller's
borrowed needs is recovered from the `consumed` list (see `PatState`); the
fallback errors stand for "Expected need to be populated by pattern". -/
def patBindingWithSingle (cx : Ctxt) (p : Pat) (name : Name) (falseLabel : Nat)
    (load : Load) (needs : Needs) : Except CErr (Ctxt × Bool × Needs) := do
  let (st, bound) ← pat ⟨cx, [(name, needs)], []⟩ p falseLabel load
  if st.remaining.isEmpty then
    match st.consumed.lookup name with
    | some n =>
      match n.asAddr with
      | some a => .ok ({ st.cx with scopes := st.cx.scopes.define name a }, bound, n)
      | Option.none => .error .msgNeedPopulated
    | Option.none => .error .msgNeedPopulated
  else .error (.msgUnboundNames (st.remaining.map Prod.fst))

/-- Embeds `pattern_panic` (assemble.rs:404); the `let_pattern_might_panic`
diagnostic is dropped. -/
def patternPanic (cx : Ctxt) (f : Ctxt → Nat → Except CErr (Ctxt × Bool)) :
    Except CErr Ctxt := do
  let (falseLabel, asm) := cx.asm.newLabel
  let (cx, used) ← f { cx with asm } falseLabel
  if used then do
    let (matchLabel, asm) := cx.asm.newLabel
    let asm := asm.jump matchLabel
    let asm ← asm.place falseLabel
    let asm := asm.push .panic
    let asm ← asm.place matchLabel
    .ok { cx with asm }
  else .ok cx

/-- Embeds `pat_binding` (assemble.rs:458). -/
def patBinding (cx : Ctxt) (pb : PatBinding) (falseLabel : Nat) (load : Load) :
    Except CErr (Ctxt × Bool) :=
  let (linear, scopes) := cx.scopes.linear pb.names.length
  patBindingWith { cx with scopes } pb.pat pb.names falseLabel load linear

/-- Embeds `lit` (assemble.rs:2935) on the fragment literals; the `not_used`
diagnostic on an elided literal is dropped, and no fragment literal can
fail. -/
def litFn (cx : Ctxt) (l : Lit) (needs : Needs) : Ctxt × Needs × Bool :=
  match needs.tryAllocAddr cx.scopes with
  | (Option.none, needs, scopes) => ({ cx with scopes }, needs, false)
  | (some addr, needs, scopes) =>
    let inst : Inst :=
      match l with
      | .bool v => .store (.bool v) (.addr addr)
      | .integer v => .store (.integer v) (.addr addr)
    ({ cx with scopes, asm := cx.asm.push inst }, needs, false)

/-- Embeds `expr_continue` (assemble.rs:1932): resolve the targeted loop,
jump to its continue label, and return `Asm::new`, whose `diverge` flag is
false. -/
def exprContinue (cx : Ctxt) (hl : Option Name) : Except CErr (Ctxt × Bool) :=
  match cx.loops.head? with
  | Option.none => .error (.kind .continueOutsideOfLoop)
  | some currentLoop =>
    match hl with
    | some label =>
      match walkUntilLabel cx.loops label with
      | .ok (lastLoop, _) =>
        .ok ({ cx with asm := cx.asm.jump lastLoop.continueLabel }, false)
      | .error e => .error e
    | Option.none =>
      .ok ({ cx with asm := cx.asm.jump currentLoop.continueLabel }, false)

mutual
/-- Embeds `expr` (assemble.rs:1201) on the fragment expression kinds.
`fuel` bounds the recursion depth of the embedding and is threaded through
every call; the source recursion is structural and never exhausts it. -/
def expr (fuel : Nat) (cx : Ctxt) (e : Expr) (needs : Needs) :
    Except CErr (Ctxt × Needs × Bool) :=
  match fuel with
  | 0 => .error .recursionLimit
  | fuel + 1 =>
    match e with
    | .lit l => .ok (litFn cx l needs)
    | .binary op lhs rhs => exprBinary fuel cx op lhs rhs needs
    | .breakE hl he => do
      let (cx, d) ← exprBreak fuel cx hl he
      .ok (cx, needs, d)
    | .continueE hl => do
      let (cx, d) ← exprContinue cx hl
      .ok (cx, needs, d)
    | .returnE he => do
      let (cx, d) ← exprReturn fuel cx he
      .ok (cx, needs, d)
    | .blockE b => blockFn fuel cx b needs

/-- Embeds `expr_binary` (assemble.rs:1407) on the fragment operators.  None
of them is an assignment operator, so the `compile_assign_binop` branch is
unreachable and omitted; the non-conditional path inlines `expr_array`
(assemble.rs:1807) at its two operands. -/
def exprBinary (fuel : Nat) (cx : Ctxt) (op : BinOp) (lhs rhs : Expr)
    (needs : Needs) : Except CErr (Ctxt × Needs × Bool) :=
  match fuel with
  | 0 => .error .recursionLimit
  | fuel + 1 =>
    if op.isConditional then do
      let (cx, needs) ← compileConditionalBinop fuel cx lhs rhs op needs
      .ok (cx, needs, false)
    else
      let instOp : InstOp :=
        match op with
        | .and => .and
        | .or => .or
        | .add => .add
        | .eq => .eq
      let (guard, scopes) := cx.scopes.child
      let cx := { cx with scopes }
      do
      let (cx, a, d₁) ← expr fuel cx lhs .allocatable
      if d₁ then do
        let scopes ← cx.scopes.pop guard
        .ok ({ cx with scopes }, needs, false)
      else
        match a.asAddr with
        | Option.none => .error .msgExpectedAddress
        | some aa => do
          let (cx, b, d₂) ← expr fuel cx rhs .allocatable
          if d₂ then do
            let scopes ← cx.scopes.pop guard
            .ok ({ cx with scopes }, needs, false)
          else
            match b.asAddr with
            | Option.none => .error .msgExpectedAddress
            | some bb => do
              let (out, needs, scopes) := needs.allocOutput cx.scopes
              let cx := { cx with scopes, asm := cx.asm.push (.op instOp aa bb out) }
              let scopes ← cx.scopes.pop guard
              .ok ({ cx with scopes }, needs, false)

/-- Embeds `compile_conditional_binop` (assemble.rs:1477): mint the end
label, lower the left operand into the needs, return early if the needs has
no address, emit the short-circuit jump, lower the right operand into the
same needs, and place the end label. -/
def compileConditionalBinop (fuel : Nat) (cx : Ctxt) (lhs rhs : Expr) (op : BinOp)
    (needs : Needs) : Except CErr (Ctxt × Needs) :=
  match fuel with
  | 0 => .error .recursionLimit
  | fuel + 1 => do
    let (endLabel, asm) := cx.asm.newLabel
    let (cx, needs, _) ← expr fuel { cx with asm } lhs needs
    match needs.asAddr with
    | Option.none => .ok (cx, needs)
    | some addr => do
      let asm ←
        match op with
        | .and => pure (cx.asm.jumpIfNot addr endLabel)
        | .or => pure (cx.asm.jumpIf addr endLabel)
        | _ => Except.error (CErr.kind .unsupportedBinaryOp)
      let (cx, needs, _) ← expr fuel { cx with asm } rhs needs
      let asm ← cx.asm.place endLabel
      .ok ({ cx with asm }, needs)

/-- Embeds `expr_break` (assemble.rs:1650).  `Needs::with_assigned` and
`Needs::with_local` on the current loop's output address both become
`Needs.assigned`.  Always returns `diverge = true`. -/
def exprBreak (fuel : Nat) (cx : Ctxt) (hl : Option Name) (he : Option Expr) :
    Except CErr (Ctxt × Bool) :=
  match fuel with
  | 0 => .error .recursionLimit
  | fuel + 1 =>
    match cx.loops.head? with
    | Option.none => .error (.kind .breakOutsideOfLoop)
    | some currentLoop => do
      let (lastLoop, toDrop, hasValue, cx) ←
        (match hl, he with
        | Option.none, some e => do
          let valueNeeds : Needs :=
            match currentLoop.output with
            | some a => .assigned a
            | Option.none => .none
          let (cx, _, _) ← expr fuel cx e valueNeeds
          pure (currentLoop, currentLoop.drop.toList, true, cx)
        | some label, Option.none => do
          let (lastLoop, toDrop) ← walkUntilLabel cx.loops label
          pure (lastLoop, toDrop, false, cx)
        | some label, some e => do
          let valueNeeds : Needs :=
            match currentLoop.output with
            | some a => .assigned a
            | Option.none => .none
          let (cx, _, _) ← expr fuel cx e valueNeeds
          let (lastLoop, toDrop) ← walkUntilLabel cx.loops label
          pure (lastLoop, toDrop, true, cx)
        | Option.none, Option.none =>
          pure (currentLoop, currentLoop.drop.toList, false, cx)
        : Except CErr (Loop × List InstAddress × Bool × Ctxt))
      let asm := toDrop.foldl (fun asm addr => asm.push (.drop addr)) cx.asm
      let asm :=
        match lastLoop.output, hasValue with
        | some a, false => asm.push (Inst.unitStore (.addr a))
        | _, _ => asm
      .ok ({ cx with asm := asm.jump lastLoop.breakLabel }, true)

/-- Embeds `expr_return` (assemble.rs:2575), with `return_` (assemble.rs:387)
inlined at its `expr` instantiation.  The loop stack is traversed in the
source's `Vec` order, outermost loop first.  Always returns
`diverge = true`. -/
def exprReturn (fuel : Nat) (cx : Ctxt) (he : Option Expr) :
    Except CErr (Ctxt × Bool) :=
  match fuel with
  | 0 => .error .recursionLimit
  | fuel + 1 => do
    let asm := cx.loops.reverse.foldl (fun asm l =>
      match l.drop with
      | some addr => asm.push (.drop addr)
      | Option.none => asm) cx.asm
    let cx := { cx with asm }
    match he with
    | some e => do
      let (cx, valueNeeds, _) ← expr fuel cx e .allocatable
      let cx :=
        match valueNeeds.asAddr with
        | some a => { cx with asm := cx.asm.push (.ret a) }
        | Option.none => cx
      .ok (cx, true)
    | Option.none => .ok ({ cx with asm := cx.asm.push .retUnit }, true)

/-- Embeds `block` (assemble.rs:921): a child scope around
`block_without_scope`. -/
def blockFn (fuel : Nat) (cx : Ctxt) (b : Block) (needs : Needs) :
    Except CErr (Ctxt × Needs × Bool) :=
  match fuel with
  | 0 => .error .recursionLimit
  | fuel + 1 => do
    let (scope, scopes) := cx.scopes.child
    let (cx, needs, d) ← blockWithoutScope fuel { cx with scopes } b needs
    let scopes ← cx.scopes.pop scope
    .ok ({ cx with scopes }, needs, d)

/-- Embeds `block_without_scope` (assemble.rs:934): lower the statements,
then the optional trailing value expression into the needs (skipped if the
statements diverged), or a unit store when there is no trailing expression
and the needs requires a value.  The divergence of the trailing expression is
discarded, as in the source. -/
def blockWithoutScope (fuel : Nat) (cx : Ctxt) (b : Block) (needs : Needs) :
    Except CErr (Ctxt × Needs × Bool) :=
  match fuel with
  | 0 => .error .recursionLimit
  | fuel + 1 => do
    let cx := { cx with contexts := cx.contexts + 1 }
    let (cx, diverge) ← blockStmts fuel cx b.statements false
    let (cx, needs) ←
      (match b.value with
      | some e =>
        if diverge then pure (cx, needs)
        else do
          let (cx, needs, _) ← expr fuel cx e needs
          pure (cx, needs)
      | Option.none =>
        match needs.tryAllocOutput cx.scopes with
        | (some out, needs, scopes) =>
          pure ({ cx with scopes, asm := cx.asm.push (Inst.unitStore out) }, needs)
        | (Option.none, needs, scopes) => pure ({ cx with scopes }, needs)
        : Except CErr (Ctxt × Needs))
    if cx.contexts = 0 then .error .msgMissingContext
    else .ok ({ cx with contexts := cx.contexts - 1 }, needs, diverge)

/-- Embeds the statement loop of `block_without_scope` (assemble.rs:942-958):
each statement is lowered into a discarding needs, and once `diverge` is set
every remaining statement is skipped without emitting anything. -/
def blockStmts (fuel : Nat) (cx : Ctxt) (stmts : List Stmt) (diverge : Bool) :
    Except CErr (Ctxt × Bool) :=
  match fuel with
  | 0 => .error .recursionLimit
  | fuel + 1 =>
    match stmts with
    | [] => .ok (cx, diverge)
    | stmt :: rest =>
      if diverge then blockStmts fuel cx rest diverge
      else
        match stmt with
        | .localS l => do
          let (cx, _, _) ← localFn fuel cx l .none
          blockStmts fuel cx rest diverge
        | .exprS e => do
          let (cx, _, d) ← expr fuel cx e .none
          blockStmts fuel cx rest (diverge || d)

/-- Embeds `local` (assemble.rs:2981): bind the pattern against the
initializer through `pattern_panic`/`pat_binding`, then store unit if the
statement is used as a value. -/
def localFn (fuel : Nat) (cx : Ctxt) (l : LocalHir) (needs : Needs) :
    Except CErr (Ctxt × Needs × Bool) :=
  match fuel with
  | 0 => .error .recursionLimit
  | fuel + 1 => do
    let load : Load := fun cx n => do
      let (cx, n, _) ← expr fuel cx l.expr n
      .ok (cx, n)
    let cx ← patternPanic cx (fun cx falseLabel => patBinding cx l.pat falseLabel load)
    match needs.tryAllocOutput cx.scopes with
    | (some out, needs, scopes) =>
      .ok ({ cx with scopes, asm := cx.asm.push (Inst.unitStore out) }, needs, false)
    | (Option.none, needs, scopes) => .ok ({ cx with scopes }, needs, false)
end

/-- Embeds `call_const_fn` (assemble.rs:176).  The constant-IR compiler and
interpreter live outside `src/` and are abstracted: `compileArg` stands for
`ir::compiler::expr`, `σ` for the interpreter state (budget, scopes, current
module and item), `evalIr` for `Interpreter::eval_value`, `decl` for
`scopes.decl`, and `setCalleeItem` for switching the interpreter to the
constant function's declaring module and item before evaluating its body.
The final `from_value` conversion of the result is not modelled. -/
def callConstFn {Ir Value σ : Type} (params : List Name) (body : Ir)
    (args : List Expr) (compileArg : Expr → Except CErr Ir) (init : σ)
    (evalIr : Ir → σ → Except CErr (Value × σ)) (decl : Name → Value → σ → σ)
    (setCalleeItem : σ → σ) : Except CErr Value :=
  if params.length ≠ args.length then
    .error (.kind (.unsupportedArgumentCount params.length args.length))
  else do
    let compiled ← args.mapM compileArg
    let st ← (compiled.zip params).foldlM (fun st q => do
      let (v, st) ← evalIr q.1 st
      pure (decl q.2 v st)) init
    let st := setCalleeItem st
    let (v, _) ← evalIr body st
    .ok v

/-! ## Theorems -/

/-- Helper: a successful read through `checked_add` resolves to the sum. -/
theorem checkedAdd_of_le {a b : Nat} (h : a + b ≤ USIZE_MAX) :
    checkedAdd a b = some (a + b) := by
  simp [checkedAdd, h]

/-- Helper: `at` succeeds on an in-bounds address and returns the value at
`top + offset`. -/
theorem atAddr_of_lt {α : Type} (s : Stack α) (addr : InstAddress)
    (hrep : s.stack.length ≤ USIZE_MAX) (h : s.top + addr.offset < s.stack.length) :
    s.atAddr addr = .ok (s.stack.get ⟨s.top + addr.offset, h⟩) := by
  have hle : s.top + addr.offset ≤ USIZE_MAX := le_trans (le_of_lt h) hrep
  simp [Stack.atAddr, checkedAdd_of_le hle, List.getElem?_eq_getElem h]

/-- Helper: `at` fails with the address on an out-of-bounds address. -/
theorem atAddr_of_ge {α : Type} (s : Stack α) (addr : InstAddress)
    (h : s.stack.length ≤ s.top + addr.offset) :
    s.atAddr addr = .error ⟨addr⟩ := by
  unfold Stack.atAddr checkedAdd
  by_cases hle : s.top + addr.offset ≤ USIZE_MAX
  · rw [if_pos hle]
    simp [List.get?_eq_getElem?, List.getElem?_eq_none h]
  · rw [if_neg hle]

/-- Helper: `at_mut` succeeds on an in-bounds address, updating at
`top + offset`. -/
theorem atMut_of_lt {α : Type} (s : Stack α) (addr : InstAddress) (f : α → α)
    (hrep : s.stack.length ≤ USIZE_MAX) (h : s.top + addr.offset < s.stack.length) :
    s.atMut addr f =
      .ok { s with
            stack := s.stack.set (s.top + addr.offset)
              (f (s.stack.get ⟨s.top + addr.offset, h⟩)) } := by
  have hle : s.top + addr.offset ≤ USIZE_MAX := le_trans (le_of_lt h) hrep
  simp [Stack.atMut, checkedAdd_of_le hle, List.getElem?_eq_getElem h]

/-- Helper: `at_mut` fails with the address on an out-of-bounds address. -/
theorem atMut_of_ge {α : Type} (s : Stack α) (addr : InstAddress) (f : α → α)
    (h : s.stack.length ≤ s.top + addr.offset) :
    s.atMut addr f = .error ⟨addr⟩ := by
  unfold Stack.atMut checkedAdd
  by_cases hle : s.top + addr.offset ≤ USIZE_MAX
  · rw [if_pos hle]
    simp [List.get?_eq_getElem?, List.getElem?_eq_none h]
  · rw [if_neg hle]

/-- Claim C3: for every stack and address, `at(addr)` returns a value iff
`top + addr.offset() < stack.len()`, otherwise it fails with a `StackError`
carrying that address; `at_mut(addr)` succeeds and fails under exactly the
same condition.  The hypothesis states that the stack is representable on the
64-bit target (`len ≤ usize::MAX`), which every Rust `Vec` satisfies. -/
theorem C3_at_succeeds_iff {α : Type} (s : Stack α) (addr : InstAddress)
    (hrep : s.stack.length ≤ USIZE_MAX) :
    ((∃ v, s.atAddr addr = .ok v) ↔ s.top + addr.offset < s.stack.length) ∧
    (s.stack.length ≤ s.top + addr.offset → s.atAddr addr = .error ⟨addr⟩) ∧
    ∀ f : α → α,
      ((∃ t, s.atMut addr f = .ok t) ↔ s.top + addr.offset < s.stack.length) ∧
      (s.stack.length ≤ s.top + addr.offset → s.atMut addr f = .error ⟨addr⟩) := by
  refine ⟨⟨?_, ?_⟩, atAddr_of_ge s addr, ?_⟩
  · rintro ⟨v, hv⟩
    by_contra hge
    rw [atAddr_of_ge s addr (le_of_not_lt hge)] at hv
    exact Except.noConfusion hv
  · intro h
    exact ⟨_, atAddr_of_lt s addr hrep h⟩
  · intro f
    refine ⟨⟨?_, ?_⟩, atMut_of_ge s addr f⟩
    · rintro ⟨t, ht⟩
      by_contra hge
      rw [atMut_of_ge s addr f (le_of_not_lt hge)] at ht
      exact Except.noConfusion ht
    · intro h
      exact ⟨_, atMut_of_lt s addr f hrep h⟩

/-- Witness for C3 at the stack `[7]` with frame base 0: address 0 resolves,
address 1 fails with `StackError`. -/
theorem C3_at_succeeds_iff_witness :
    ((Stack.mk [7] 0 : Stack Nat).atAddr ⟨0⟩ = .ok 7) ∧
    ((Stack.mk [7] 0 : Stack Nat).atAddr ⟨1⟩ = .error ⟨⟨1⟩⟩) := by
  constructor
  · obtain ⟨v, hv⟩ :=
      ((C3_at_succeeds_iff (Stack.mk [7] 0 : Stack Nat) ⟨0⟩ (by decide)).1).2 (by decide)
    rw [hv]
    have : v = 7 := by
      have := hv
      rw [show (Stack.mk [7] 0 : Stack Nat).atAddr ⟨0⟩ = .ok 7 from rfl] at this
      exact (Except.ok.injEq _ _).mp this.symm
    rw [this]
  · exact (C3_at_succeeds_iff (Stack.mk [7] 0 : Stack Nat) ⟨1⟩ (by decide)).2.1 (by decide)

/-- Claim C8: `slice_at(addr, 0)` and `slice_at_mut(addr, 0)` succeed with an
empty view for every address, in or out of the frame; for `n > 0` both
return the window `stack[top+offset .. top+offset+n]` when it lies within
the stack and fail with `SliceError { addr, len, stack }` exactly when it
does not. -/
theorem C8_slice_at_spec {α : Type} (s : Stack α) (addr : InstAddress) :
    (s.sliceAt addr 0 = .ok [] ∧ s.sliceAtMut addr 0 = .ok []) ∧
    ∀ n, 0 < n →
      (s.top + addr.offset + n ≤ s.stack.length → s.stack.length ≤ USIZE_MAX →
        s.sliceAt addr n = .ok ((s.stack.drop (s.top + addr.offset)).take n) ∧
        s.sliceAtMut addr n = .ok ((s.stack.drop (s.top + addr.offset)).take n)) ∧
      (s.stack.length < s.top + addr.offset + n →
        s.sliceAt addr n = .error ⟨addr, n, s.stack.length - s.top⟩ ∧
        s.sliceAtMut addr n = .error ⟨addr, n, s.stack.length - s.top⟩) := by
  refine ⟨⟨?_, ?_⟩, ?_⟩
  · simp [Stack.sliceAt, innerSliceAt]
  · simp [Stack.sliceAtMut, innerSliceAtMut]
  · intro n hn
    have hn' : ¬ n = 0 := by omega
    have hinner :
        (s.top + addr.offset + n ≤ s.stack.length → s.stack.length ≤ USIZE_MAX →
          innerSliceAt s.stack s.top addr n =
            some ((s.stack.drop (s.top + addr.offset)).take n)) ∧
        (s.stack.length < s.top + addr.offset + n →
          innerSliceAt s.stack s.top addr n = Option.none) := by
      constructor
      · intro hin hrep
        have h1 : s.top + addr.offset ≤ USIZE_MAX := by omega
        have h2 : s.top + addr.offset + n ≤ USIZE_MAX := by omega
        unfold innerSliceAt
        rw [if_neg hn', checkedAdd_of_le h1, Option.some_bind,
          checkedAdd_of_le h2, Option.some_bind, if_pos ⟨by omega, hin⟩]
      · intro hout
        unfold innerSliceAt
        rw [if_neg hn']
        by_cases h1 : s.top + addr.offset ≤ USIZE_MAX
        · rw [checkedAdd_of_le h1, Option.some_bind]
          by_cases h2 : s.top + addr.offset + n ≤ USIZE_MAX
          · rw [checkedAdd_of_le h2, Option.some_bind, if_neg (by omega)]
          · rw [show checkedAdd (s.top + addr.offset) n = Option.none by
              simp [checkedAdd, h2], Option.none_bind]
        · rw [show checkedAdd s.top addr.offset = Option.none by
            simp [checkedAdd, h1], Option.none_bind]
    have hmut : innerSliceAtMut s.stack s.top addr n = innerSliceAt s.stack s.top addr n := rfl
    constructor
    · intro hin hrep
      constructor
      · unfold Stack.sliceAt
        rw [hinner.1 hin hrep]
      · unfold Stack.sliceAtMut
        rw [hmut, hinner.1 hin hrep]
    · intro hout
      constructor
      · unfold Stack.sliceAt
        rw [hinner.2 hout]
        rfl
      · unfold Stack.sliceAtMut
        rw [hmut, hinner.2 hout]
        rfl

/-- Witness for C8 on the stack `[1, 2, 3]` with frame base 1: a zero-length
slice at the wildly out-of-range address 1000 succeeds, a two-element window
at address 0 succeeds, and a three-element window fails with a
`SliceError`. -/
theorem C8_slice_at_spec_witness :
    ((Stack.mk [1, 2, 3] 1 : Stack Nat).sliceAt ⟨1000⟩ 0 = .ok []) ∧
    ((Stack.mk [1, 2, 3] 1 : Stack Nat).sliceAt ⟨0⟩ 2 = .ok [2, 3]) ∧
    ((Stack.mk [1, 2, 3] 1 : Stack Nat).sliceAt ⟨0⟩ 3 = .error ⟨⟨0⟩, 3, 2⟩) := by
  refine ⟨(C8_slice_at_spec (Stack.mk [1, 2, 3] 1 : Stack Nat) ⟨1000⟩).1.1, ?_, ?_⟩
  · have := ((C8_slice_at_spec (Stack.mk [1, 2, 3] 1 : Stack Nat) ⟨0⟩).2 2
      (by decide)).1 (by decide) (by decide)
    exact this.1
  · have := ((C8_slice_at_spec (Stack.mk [1, 2, 3] 1 : Stack Nat) ⟨0⟩).2 3
      (by decide)).2 (by decide)
    exact this.1

/-- Claim C9: `swap(a, a)` succeeds and leaves the stack unchanged for every
address `a`, even out of bounds; for distinct in-bounds addresses it
exchanges the two values and changes nothing else. -/
theorem C9_swap_spec {α : Type} :
    (∀ (s : Stack α) (a : InstAddress), s.swap a a = .ok s) ∧
    (∀ (s : Stack α) (a b : InstAddress), a ≠ b → s.stack.length ≤ USIZE_MAX →
      s.top + a.offset < s.stack.length → s.top + b.offset < s.stack.length →
      ∃ t, s.swap a b = .ok t ∧ t.top = s.top ∧
        t.stack.length = s.stack.length ∧
        t.stack.get? (s.top + a.offset) = s.stack.get? (s.top + b.offset) ∧
        t.stack.get? (s.top + b.offset) = s.stack.get? (s.top + a.offset) ∧
        ∀ i, i ≠ s.top + a.offset → i ≠ s.top + b.offset →
          t.stack.get? i = s.stack.get? i) := by
  constructor
  · intro s a
    simp [Stack.swap]
  · intro s a b hne hrep ha hb
    have hne' : s.top + a.offset ≠ s.top + b.offset := by
      intro h
      apply hne
      have : a.offset = b.offset := by omega
      cases a
      cases b
      simp_all
    have hZa : s.top + a.offset ≤ USIZE_MAX := by omega
    have hZb : s.top + b.offset ≤ USIZE_MAX := by omega
    refine ⟨{ s with
              stack := (s.stack.set (s.top + a.offset)
                  (s.stack.get ⟨s.top + b.offset, hb⟩)).set (s.top + b.offset)
                (s.stack.get ⟨s.top + a.offset, ha⟩) },
      ?_, rfl, ?_, ?_, ?_, ?_⟩
    · simp only [Stack.swap, if_neg hne, checkedAdd_of_le hZa, checkedAdd_of_le hZb,
        Option.some.injEq]
      rw [dif_pos ha, dif_pos hb]
    · simp
    · rw [List.get?_eq_getElem?, List.get?_eq_getElem?,
        List.getElem?_set_ne (Ne.symm hne'), List.getElem?_eq_getElem hb]
      simp [List.getElem?_set_self, ha]
    · rw [List.get?_eq_getElem?, List.get?_eq_getElem?,
        List.getElem?_eq_getElem ha]
      simp [List.getElem?_set_self, ha, hb]
    · intro i hia hib
      rw [List.get?_eq_getElem?, List.get?_eq_getElem?,
        List.getElem?_set_ne (Ne.symm hib), List.getElem?_set_ne (Ne.symm hia)]

/-- Witness for C9 on the stack `[10, 20, 30]` with frame base 1: swapping an
out-of-bounds address with itself is a no-op, and swapping the two in-bounds
frame addresses 0 and 1 exchanges the values. -/
theorem C9_swap_spec_witness :
    ((Stack.mk [10, 20, 30] 1 : Stack Nat).swap ⟨99⟩ ⟨99⟩ =
      .ok (Stack.mk [10, 20, 30] 1)) ∧
    ∃ t, (Stack.mk [10, 20, 30] 1 : Stack Nat).swap ⟨0⟩ ⟨1⟩ = .ok t ∧
      t.stack.get? 1 = some 30 ∧ t.stack.get? 2 = some 20 ∧
      t.stack.get? 0 = some 10 := by
  constructor
  · exact C9_swap_spec.1 (Stack.mk [10, 20, 30] 1) ⟨99⟩
  · obtain ⟨t, hsw, -, -, h12, h21, hrest⟩ :=
      C9_swap_spec.2 (Stack.mk [10, 20, 30] 1 : Stack Nat) ⟨0⟩ ⟨1⟩ (by decide)
        (by decide) (by decide) (by decide)
    exact ⟨t, hsw, by simpa using h12, by simpa using h21,
      by simpa using hrest 0 (by decide) (by decide)⟩

/-- Claim C10: `swap_top(addr, 0)` always succeeds, even for out-of-range
addresses, copies no values, leaves the stack contents and length unchanged,
sets the frame base to the current stack length, and returns the previous
frame base. -/
theorem C10_swap_top_zero {α : Type} (s : Stack α) (addr : InstAddress) :
    s.swapTop addr 0 = .ok (s.top, { s with top := s.stack.length }) := rfl

/-- Claim C2 (code bug): starting from the stack `[0, 1]` with frame base 0,
`swap_top(address 0, 1)` succeeds and returns old top 0, leaving the state
`[0, 1, 0]` with frame base 2.  The callee frame still holds one value
(`len = 3 ≠ top = 2`), yet `pop_stack_top(0)` performs no assertion that the
frame was unwound: it silently truncates the leftover value and restores the
caller, contradicting the doc comment on `pop_stack_top` ("this asserts that
the size of the current stack frame is exactly zero") and the claim. -/
theorem C2_pop_stack_top_no_assert :
    (Stack.mk [0, 1] 0 : Stack Nat).swapTop ⟨0⟩ 1 = .ok (0, ⟨[0, 1, 0], 2⟩) ∧
    (Stack.mk [0, 1, 0] 2 : Stack Nat).stack.length ≠ 2 ∧
    (Stack.mk [0, 1, 0] 2 : Stack Nat).popStackTop 0 = ⟨[0, 1], 0⟩ := by
  refine ⟨?_, by decide, rfl⟩
  rfl

/-- Helper: a successful `Except` bind decomposes. -/
theorem except_bind_ok {ε α β : Type} {x : Except ε α} {f : α → Except ε β} {b : β}
    (h : x >>= f = .ok b) : ∃ a, x = .ok a ∧ f a = .ok b := by
  cases x with
  | ok a => exact ⟨a, rfl, h⟩
  | error e => simp [Bind.bind, Except.bind] at h

/-- Helper: pushing drops with a fold appends the mapped list. -/
theorem foldl_push_drop (A : AsmBuffer) (l : List InstAddress) :
    (l.foldl (fun asm addr => asm.push (.drop addr)) A).insts =
      A.insts ++ l.map Inst.drop := by
  induction l generalizing A with
  | nil => simp
  | cons x xs ih =>
    rw [List.foldl_cons, ih]
    simp [AsmBuffer.push]

/-- Helper: a fold of drop pushes leaves the label table and counter
unchanged. -/
theorem foldl_push_drop_placed (A : AsmBuffer) (l : List InstAddress) :
    (l.foldl (fun asm addr => asm.push (.drop addr)) A).placed = A.placed ∧
    (l.foldl (fun asm addr => asm.push (.drop addr)) A).nextLabel = A.nextLabel := by
  induction l generalizing A with
  | nil => exact ⟨rfl, rfl⟩
  | cons x xs ih =>
    rw [List.foldl_cons]
    simpa [AsmBuffer.push] using ih (A.push (.drop x))

/-- Helper: a successful `expr_break` always reports divergence. -/
theorem exprBreak_diverge {fuel : Nat} {cx : Ctxt} {hl : Option Name}
    {he : Option Expr} {p : Ctxt × Bool} (h : exprBreak fuel cx hl he = .ok p) :
    p.2 = true := by
  obtain ⟨p1, p2⟩ := p
  cases fuel with
  | zero => simp [exprBreak] at h
  | succ f =>
    unfold exprBreak at h
    cases hh : cx.loops.head? with
    | none => rw [hh] at h; simp at h
    | some current =>
      rw [hh] at h
      obtain ⟨⟨l, td, hv, cx1⟩, -, h2⟩ := except_bind_ok h
      simp only [Except.ok.injEq, Prod.mk.injEq] at h2
      exact h2.2.symm

/-- Helper: a successful `expr_return` always reports divergence. -/
theorem exprReturn_diverge {fuel : Nat} {cx : Ctxt} {he : Option Expr}
    {p : Ctxt × Bool} (h : exprReturn fuel cx he = .ok p) : p.2 = true := by
  obtain ⟨p1, p2⟩ := p
  cases fuel with
  | zero => simp [exprReturn] at h
  | succ f =>
    unfold exprReturn at h
    cases he with
    | none =>
      simp only [Except.ok.injEq, Prod.mk.injEq] at h
      exact h.2.symm
    | some e =>
      obtain ⟨⟨cx1, n1, d1⟩, -, h2⟩ := except_bind_ok h
      simp only [Except.ok.injEq, Prod.mk.injEq] at h2
      exact h2.2.symm

/-- Helper: a successful `expr_continue` never reports divergence; the
source returns `Asm::new(span)` (assemble.rs:1950). -/
theorem exprContinue_no_diverge {cx : Ctxt} {hl : Option Name} {p : Ctxt × Bool}
    (h : exprContinue cx hl = .ok p) : p.2 = false := by
  unfold exprContinue at h
  split at h
  · exact Except.noConfusion h
  · split at h
    · split at h
      · injection h with h
        rw [← h]
      · exact Except.noConfusion h
    · injection h with h
      rw [← h]

/-- Helper: once the diverge flag is set, the statement loop of
`block_without_scope` leaves the context untouched: no instructions, labels,
allocations or definitions are produced for the remaining statements. -/
theorem blockStmts_skip :
    ∀ (fuel : Nat) (cx : Ctxt) (stmts : List Stmt), stmts.length < fuel →
      blockStmts fuel cx stmts true = .ok (cx, true) := by
  intro fuel
  induction fuel with
  | zero => intro cx stmts h; omega
  | succ f ih =>
    intro cx stmts h
    cases stmts with
    | nil => rfl
    | cons s rest =>
      have hlt : rest.length < f := by simpa using h
      show blockStmts f cx rest true = .ok (cx, true)
      exact ih cx rest hlt

/-- Claim C1 (amended): lowering a Break or Return expression returns
`diverges = true`, but lowering a Continue expression returns
`diverges = false` (`expr_continue` ends in `Asm::new`, assemble.rs:1950);
and every statement that follows a divergent statement in a block is
short-circuited: once the diverge flag is set the statement loop emits no
instructions and leaves the whole context unchanged. -/
theorem C1_divergence :
    (∀ (fuel : Nat) (cx : Ctxt) (hl : Option Name) (he : Option Expr)
      (needs : Needs) (r : Ctxt × Needs × Bool),
      expr fuel cx (.breakE hl he) needs = .ok r → r.2.2 = true) ∧
    (∀ (fuel : Nat) (cx : Ctxt) (he : Option Expr) (needs : Needs)
      (r : Ctxt × Needs × Bool),
      expr fuel cx (.returnE he) needs = .ok r → r.2.2 = true) ∧
    (∀ (fuel : Nat) (cx : Ctxt) (hl : Option Name) (needs : Needs)
      (r : Ctxt × Needs × Bool),
      expr fuel cx (.continueE hl) needs = .ok r → r.2.2 = false) ∧
    (∀ (fuel : Nat) (cx : Ctxt) (stmts : List Stmt), stmts.length < fuel →
      blockStmts fuel cx stmts true = .ok (cx, true)) := by
  refine ⟨?_, ?_, ?_, blockStmts_skip⟩
  · intro fuel cx hl he needs r h
    cases fuel with
    | zero => simp [expr] at h
    | succ f =>
      unfold expr at h
      obtain ⟨⟨cx1, d⟩, hb, h2⟩ := except_bind_ok h
      simp only [Except.ok.injEq] at h2
      rw [← h2]
      exact exprBreak_diverge hb
  · intro fuel cx he needs r h
    cases fuel with
    | zero => simp [expr] at h
    | succ f =>
      unfold expr at h
      obtain ⟨⟨cx1, d⟩, hb, h2⟩ := except_bind_ok h
      simp only [Except.ok.injEq] at h2
      rw [← h2]
      exact exprReturn_diverge hb
  · intro fuel cx hl needs r h
    cases fuel with
    | zero => simp [expr] at h
    | succ f =>
      unfold expr at h
      obtain ⟨⟨cx1, d⟩, hb, h2⟩ := except_bind_ok h
      simp only [Except.ok.injEq] at h2
      rw [← h2]
      exact exprContinue_no_diverge hb

/-- Witness for C1: a break, a return and a continue lowered inside a loop
context, and a statement skipped after divergence. -/
theorem C1_divergence_witness :
    ((expr 2 Ctxt.inLoop (.breakE Option.none Option.none) Needs.none).map
        (fun r => r.2.2) = .ok true) ∧
    ((expr 2 Ctxt.inLoop (.returnE Option.none) Needs.none).map
        (fun r => r.2.2) = .ok true) ∧
    blockStmts 2 Ctxt.initial [.exprS (.lit (.bool true))] true =
      .ok (Ctxt.initial, true) := by
  refine ⟨?_, ?_, C1_divergence.2.2.2 2 Ctxt.initial [.exprS (.lit (.bool true))]
    (by decide)⟩
  · have h : expr 2 Ctxt.inLoop (.breakE Option.none Option.none) Needs.none =
        .ok (⟨⟨[.jump 1], 2, []⟩, ⟨0, [], 0, []⟩,
          [⟨Option.none, 0, 1, Option.none, Option.none⟩], 0⟩, Needs.none, true) := by
      simp [expr, exprBreak, Ctxt.inLoop, AsmBuffer.jump, AsmBuffer.push, Bind.bind, Except.bind, pure, Except.pure, Option.toList]
    have hd := C1_divergence.1 2 Ctxt.inLoop Option.none Option.none Needs.none _ h
    rw [h]
    simp [Except.map]
  · have h : expr 2 Ctxt.inLoop (.returnE Option.none) Needs.none =
        .ok (⟨⟨[.retUnit], 2, []⟩, ⟨0, [], 0, []⟩,
          [⟨Option.none, 0, 1, Option.none, Option.none⟩], 0⟩, Needs.none, true) := by
      simp [expr, exprReturn, Ctxt.inLoop, AsmBuffer.push, Bind.bind, Except.bind, pure, Except.pure, Option.toList]
    have hd := C1_divergence.2.1 2 Ctxt.inLoop Option.none Needs.none _ h
    rw [h]
    simp [Except.map]

/-- Counterexample for C1 as stated: lowering a plain `continue` inside a
loop succeeds and returns `diverges = false`, not `true`. -/
theorem C1_continue_counterexample :
    (expr 2 Ctxt.inLoop (.continueE Option.none) Needs.none).map (fun r => r.2.2) =
      .ok false := by
  simp [expr, exprContinue, Ctxt.inLoop, AsmBuffer.jump, AsmBuffer.push, Except.map, Bind.bind, Except.bind]

/-- Claim C6 (amended): when, after dispatching the pattern, any declared
binding name remains unconsumed in the bindings map, both `pat_binding_with`
and `pat_binding_with_single` fail with the message error
"Unbound names in pattern: …" carrying the remaining names
(`compile::Error::msg`, assemble.rs:492 and 527) — not with the structured
`UnboundNames` error kind the spec describes. -/
theorem C6_unbound_names_msg :
    (∀ (cx : Ctxt) (p : Pat) (names : List Name) (falseLabel : Nat) (load : Load)
      (linear : List InstAddress) (bindings : List (Name × Needs)) (st : PatState)
      (bound : Bool),
      insertBindings [] (names.zip (linear.map Needs.assigned)) = .ok bindings →
      pat ⟨cx, bindings, []⟩ p falseLabel load = .ok (st, bound) →
      st.remaining ≠ [] →
      patBindingWith cx p names falseLabel load linear =
        .error (.msgUnboundNames (st.remaining.map Prod.fst))) ∧
    (∀ (cx : Ctxt) (p : Pat) (name : Name) (falseLabel : Nat) (load : Load)
      (needs : Needs) (st : PatState) (bound : Bool),
      pat ⟨cx, [(name, needs)], []⟩ p falseLabel load = .ok (st, bound) →
      st.remaining ≠ [] →
      patBindingWithSingle cx p name falseLabel load needs =
        .error (.msgUnboundNames (st.remaining.map Prod.fst))) := by
  constructor
  · intro cx p names falseLabel load linear bindings st bound hins hpat hne
    have hemp : st.remaining.isEmpty = false := by
      cases hr : st.remaining with
      | nil => exact absurd hr hne
      | cons a l => rfl
    unfold patBindingWith
    simp only [Bind.bind, Except.bind, hins, hpat, hemp]
    simp
  · intro cx p name falseLabel load needs st bound hpat hne
    have hemp : st.remaining.isEmpty = false := by
      cases hr : st.remaining with
      | nil => exact absurd hr hne
      | cons a l => rfl
    unfold patBindingWithSingle
    simp only [Bind.bind, Except.bind, hpat, hemp]
    simp

/-- Witness for C6: an ignore pattern that declares but never consumes a
binding name makes both entry points fail with the message error. -/
theorem C6_unbound_names_msg_witness :
    patBindingWith Ctxt.initial .ignore [3] 0 (fun cx n => .ok (cx, n)) [⟨0⟩] =
      .error (.msgUnboundNames [3]) ∧
    patBindingWithSingle Ctxt.initial .ignore 4 0 (fun cx n => .ok (cx, n))
      .allocatable = .error (.msgUnboundNames [4]) := by
  constructor
  · exact C6_unbound_names_msg.1 Ctxt.initial .ignore [3] 0 _ [⟨0⟩]
      [(3, .assigned ⟨0⟩)] ⟨Ctxt.initial, [(3, .assigned ⟨0⟩)], []⟩ false
      (by simp [insertBindings]) (by simp [pat, Bind.bind, Except.bind]) (by decide)
  · exact C6_unbound_names_msg.2 Ctxt.initial .ignore 4 0 _ .allocatable
      ⟨Ctxt.initial, [(4, .allocatable)], []⟩ false
      (by simp [pat, Bind.bind, Except.bind]) (by decide)

/-- Counterexample for C6 as stated: the unconsumed-binding failure is the
message error `Error::msg("Unbound names in pattern: …")`, not the
structured `ErrorKind::UnboundNames` the claim describes. -/
theorem C6_unbound_names_counterexample :
    patBindingWith Ctxt.initial .ignore [3] 1 (fun cx n => .ok (cx, n)) [⟨0⟩] =
      .error (.msgUnboundNames [3]) ∧
    patBindingWith Ctxt.initial .ignore [3] 1 (fun cx n => .ok (cx, n)) [⟨0⟩] ≠
      .error (.kind (.unboundNames [3])) := by
  have h : patBindingWith Ctxt.initial .ignore [3] 1 (fun cx n => .ok (cx, n)) [⟨0⟩] =
      .error (.msgUnboundNames [3]) := by
    simp [patBindingWith, pat, insertBindings, Bind.bind, Except.bind]
  refine ⟨h, ?_⟩
  rw [h]
  simp

/-- Claim C7: lowering a constant-function call checks, before anything
else, that the supplied argument count equals the declared parameter count,
and otherwise fails with `UnsupportedArgumentCount { expected, actual }`
where `expected` is the parameter count and `actual` the argument count.
The equation holds for every constant-IR compiler and interpreter, so no
argument is compiled or evaluated before the failure. -/
theorem C7_const_fn_arity {Ir Value σ : Type} (params : List Name) (body : Ir)
    (args : List Expr) (compileArg : Expr → Except CErr Ir) (init : σ)
    (evalIr : Ir → σ → Except CErr (Value × σ)) (decl : Name → Value → σ → σ)
    (setCalleeItem : σ → σ) (h : params.length ≠ args.length) :
    callConstFn params body args compileArg init evalIr decl setCalleeItem =
      .error (.kind (.unsupportedArgumentCount params.length args.length)) := by
  unfold callConstFn
  rw [if_pos h]

/-- Helper: pushing an instruction appends it to the instruction list. -/
theorem push_insts (A : AsmBuffer) (i : Inst) : (A.push i).insts = A.insts ++ [i] := rfl

/-- Helper: emitting a jump appends the jump instruction. -/
theorem jump_insts (A : AsmBuffer) (l : Nat) :
    (A.jump l).insts = A.insts ++ [Inst.jump l] := rfl

/-- Claim C5 (amended): `expr_break` emits, in order: the break-value
instructions — the value is lowered into the **innermost** enclosing loop's
output address when that loop has one, into a discarding needs otherwise,
even when the break targets an outer labeled loop (assemble.rs:1675-1680) —
then the recorded iterator drops, then a unit write to the **targeted**
loop's output address exactly when the targeted loop has an output address
and no break value was supplied (assemble.rs:1695-1699), and finally the
jump to the targeted loop's break label.  The original claim's single
phrase "the enclosing loop's output address" cannot describe both writes;
see the counterexample for a labeled break where the two loops' outputs
differ. -/
theorem C5_break_emission (fuel : Nat) (cx : Ctxt) (hl : Option Name)
    (he : Option Expr) (hsucc : ∃ q, exprBreak (fuel + 1) cx hl he = .ok q) :
    ∃ current lastLoop toDrop cxv cx',
      exprBreak (fuel + 1) cx hl he = .ok (cx', true) ∧
      cx.loops.head? = some current ∧
      (match he with
       | Option.none => cxv = cx
       | some e => ∃ n d, expr fuel cx e
           (match current.output with
            | some a => Needs.assigned a
            | Option.none => Needs.none) = .ok (cxv, n, d)) ∧
      (match hl with
       | Option.none => lastLoop = current ∧ toDrop = current.drop.toList
       | some label => walkUntilLabel cxv.loops label = .ok (lastLoop, toDrop)) ∧
      cx'.asm.insts = cxv.asm.insts ++ toDrop.map Inst.drop ++
        (match lastLoop.output, he with
         | some a, Option.none => [Inst.unitStore (.addr a)]
         | _, _ => []) ++ [.jump lastLoop.breakLabel] := by
  obtain ⟨q, hq⟩ := hsucc
  have hq0 := hq
  unfold exprBreak at hq
  cases hh : cx.loops.head? with
  | none => rw [hh] at hq; simp at hq
  | some current =>
    rw [hh] at hq
    obtain ⟨⟨l1, td1, hv1, cx1⟩, hX, hg⟩ := except_bind_ok hq
    simp only [Except.ok.injEq] at hg
    subst hg
    cases hl with
    | none =>
      cases he with
      | none =>
        simp only [pure, Except.pure, Except.ok.injEq, Prod.mk.injEq] at hX
        obtain ⟨h1, h2, h3, h4⟩ := hX
        subst h1; subst h2; subst h3; subst h4
        refine ⟨current, current, current.drop.toList, cx, _, hq0, rfl, rfl,
          ⟨rfl, rfl⟩, ?_⟩
        cases ho : current.output with
        | none =>
          simp only [ho, jump_insts, push_insts, foldl_push_drop]
          try simp
        | some a =>
          simp only [ho, jump_insts, push_insts, foldl_push_drop]
          try simp
      | some e =>
        obtain ⟨⟨cxe, ne, de⟩, hexpr, hpure⟩ := except_bind_ok hX
        simp only [pure, Except.pure, Except.ok.injEq, Prod.mk.injEq] at hpure
        obtain ⟨h1, h2, h3, h4⟩ := hpure
        subst h1; subst h2; subst h3; subst h4
        refine ⟨current, current, current.drop.toList, cxe, _, hq0, rfl,
          ⟨ne, de, hexpr⟩, ⟨rfl, rfl⟩, ?_⟩
        cases ho : current.output with
        | none =>
          simp only [ho, jump_insts, push_insts, foldl_push_drop]
          try simp
        | some a =>
          simp only [ho, jump_insts, push_insts, foldl_push_drop]
          try simp
    | some label =>
      cases he with
      | none =>
        obtain ⟨⟨ll, tdl⟩, hwalk, hpure⟩ := except_bind_ok hX
        simp only [pure, Except.pure, Except.ok.injEq, Prod.mk.injEq] at hpure
        obtain ⟨h1, h2, h3, h4⟩ := hpure
        subst h1; subst h2; subst h3; subst h4
        refine ⟨current, ll, tdl, cx, _, hq0, rfl, rfl, hwalk, ?_⟩
        cases ho : ll.output with
        | none =>
          simp only [ho, jump_insts, push_insts, foldl_push_drop]
          try simp
        | some a =>
          simp only [ho, jump_insts, push_insts, foldl_push_drop]
          try simp
      | some e =>
        obtain ⟨⟨cxe, ne, de⟩, hexpr, hrest⟩ := except_bind_ok hX
        obtain ⟨⟨ll, tdl⟩, hwalk, hpure⟩ := except_bind_ok hrest
        simp only [pure, Except.pure, Except.ok.injEq, Prod.mk.injEq] at hpure
        obtain ⟨h1, h2, h3, h4⟩ := hpure
        subst h1; subst h2; subst h3; subst h4
        refine ⟨current, ll, tdl, cxe, _, hq0, rfl, ⟨ne, de, hexpr⟩, hwalk, ?_⟩
        cases ho : ll.output with
        | none =>
          simp only [ho, jump_insts, push_insts, foldl_push_drop]
          try simp
        | some a =>
          simp only [ho, jump_insts, push_insts, foldl_push_drop]
          try simp

/-- Witness for C5: a plain `break` inside a loop that has output address 5
and a recorded iterator at address 7 emits the drop, the unit write to the
output, and the jump to the break label, in that order. -/
theorem C5_break_emission_witness :
    ∃ current lastLoop toDrop cxv cx',
      exprBreak 1 Ctxt.inLoopFull Option.none Option.none = .ok (cx', true) ∧
      Ctxt.inLoopFull.loops.head? = some current ∧
      cxv = Ctxt.inLoopFull ∧
      (lastLoop = current ∧ toDrop = current.drop.toList) ∧
      cx'.asm.insts = cxv.asm.insts ++ toDrop.map Inst.drop ++
        (match lastLoop.output, (Option.none : Option Expr) with
         | some a, Option.none => [Inst.unitStore (.addr a)]
         | _, _ => []) ++ [.jump lastLoop.breakLabel] :=
  C5_break_emission 0 Ctxt.inLoopFull Option.none Option.none
    ⟨(⟨⟨[.drop ⟨7⟩, Inst.unitStore (.addr ⟨5⟩), .jump 1], 2, []⟩, ⟨0, [], 0, []⟩,
        [⟨Option.none, 0, 1, some ⟨5⟩, some ⟨7⟩⟩], 0⟩, true), by
      simp [exprBreak, Ctxt.inLoopFull, AsmBuffer.jump, AsmBuffer.push,
        Bind.bind, Except.bind, pure, Except.pure, Option.toList]⟩

/-- Counterexample for C5 as stated: in `Ctxt.inTwoLoops` the targeted
outer loop (label 5) has output address 22 and break label 3, while the
innermost loop has output address 21.  Lowering `break 'label 7` succeeds
and emits exactly a store of the value to address 21 — the innermost loop's
output — followed by the jump to the targeted loop's break label; no
instruction ever writes the value to the targeted loop's output address 22.
This refutes the claim's conjunct that a break with a value writes it to
the same "enclosing loop's output address" that receives the unit write,
i.e. the targeted loop's (the reading fixed by the claim's first conjunct
and the spec's scenario 6). -/
theorem C5_break_labeled_counterexample :
    (exprBreak 2 Ctxt.inTwoLoops (some 5) (some (.lit (.integer 7)))).map
        (fun p => p.1.asm.insts) =
      .ok [.store (.integer 7) (.addr ⟨21⟩), .jump 3] ∧
    Inst.store (.integer 7) (.addr ⟨22⟩) ∉
      [Inst.store (.integer 7) (.addr ⟨21⟩), Inst.jump 3] := by
  constructor
  · simp [exprBreak, expr, litFn, walkUntilLabel, Ctxt.inTwoLoops,
      Needs.tryAllocAddr, AsmBuffer.jump, AsmBuffer.push, Bind.bind,
      Except.bind, pure, Except.pure, Except.map, Option.toList]
  · decide

/-- Helper: a successful conditional is decided by its condition. -/
theorem ite_ok {ε α : Type} {c : Prop} [Decidable c] {x y : Except ε α} {b : α}
    (h : (if c then x else y) = .ok b) :
    (c ∧ x = .ok b) ∨ (¬c ∧ y = .ok b) := by
  split at h
  · exact Or.inl ⟨‹_›, h⟩
  · exact Or.inr ⟨‹_›, h⟩

/-- Helper: an `Assigned` needs is preserved by every lowering routine of
the fragment — the destination address a producer was given never changes.
Stated for all the mutually recursive functions at once and proved by
induction on the fuel. -/
theorem needs_preserved (fuel : Nat) :
    (∀ (cx : Ctxt) (e : Expr) (a : InstAddress) (cx' : Ctxt) (n : Needs) (d : Bool),
      expr fuel cx e (.assigned a) = .ok (cx', n, d) → n = .assigned a) ∧
    (∀ (cx : Ctxt) (op : BinOp) (lhs rhs : Expr) (a : InstAddress) (cx' : Ctxt)
      (n : Needs) (d : Bool),
      exprBinary fuel cx op lhs rhs (.assigned a) = .ok (cx', n, d) →
      n = .assigned a) ∧
    (∀ (cx : Ctxt) (lhs rhs : Expr) (op : BinOp) (a : InstAddress) (cx' : Ctxt)
      (n : Needs),
      compileConditionalBinop fuel cx lhs rhs op (.assigned a) = .ok (cx', n) →
      n = .assigned a) ∧
    (∀ (cx : Ctxt) (b : Block) (a : InstAddress) (cx' : Ctxt) (n : Needs) (d : Bool),
      blockFn fuel cx b (.assigned a) = .ok (cx', n, d) → n = .assigned a) ∧
    (∀ (cx : Ctxt) (b : Block) (a : InstAddress) (cx' : Ctxt) (n : Needs) (d : Bool),
      blockWithoutScope fuel cx b (.assigned a) = .ok (cx', n, d) →
      n = .assigned a) ∧
    (∀ (cx : Ctxt) (l : LocalHir) (a : InstAddress) (cx' : Ctxt) (n : Needs)
      (d : Bool),
      localFn fuel cx l (.assigned a) = .ok (cx', n, d) → n = .assigned a) := by
  induction fuel with
  | zero =>
    refine ⟨?_, ?_, ?_, ?_, ?_, ?_⟩ <;> intro _ _ _ _ _ _ <;>
      first
        | (intro h; exact Except.noConfusion h)
        | (intro _ h; exact Except.noConfusion h)
        | (intro _ _ h; exact Except.noConfusion h)
  | succ f ih =>
    obtain ⟨ihE, ihB, ihC, ihF, ihW, ihL⟩ := ih
    refine ⟨?_, ?_, ?_, ?_, ?_, ?_⟩
    · -- expr
      intro cx e a cx' n d h
      cases e with
      | lit l =>
        have h2 := Except.ok.inj h
        exact (congrArg (fun t => t.2.1) h2).symm
      | binary op lhs rhs => exact ihB cx op lhs rhs a cx' n d h
      | breakE hl he =>
        obtain ⟨⟨cxb, db⟩, -, h2⟩ := except_bind_ok h
        have h3 := Except.ok.inj h2
        exact (congrArg (fun t => t.2.1) h3).symm
      | continueE hl =>
        obtain ⟨⟨cxb, db⟩, -, h2⟩ := except_bind_ok h
        have h3 := Except.ok.inj h2
        exact (congrArg (fun t => t.2.1) h3).symm
      | returnE he =>
        obtain ⟨⟨cxb, db⟩, -, h2⟩ := except_bind_ok h
        have h3 := Except.ok.inj h2
        exact (congrArg (fun t => t.2.1) h3).symm
      | blockE b => exact ihF cx b a cx' n d h
    · -- exprBinary
      intro cx op lhs rhs a cx' n d h
      rcases ite_ok h with ⟨-, h⟩ | ⟨-, h⟩
      · obtain ⟨⟨cxc, nc⟩, hc, h2⟩ := except_bind_ok h
        have hnc := ihC _ _ _ _ _ _ _ hc
        have h3 := Except.ok.inj h2
        have h4 := (congrArg (fun t => t.2.1) h3).symm
        exact h4.trans hnc
      · obtain ⟨⟨cx1, a1, d1⟩, -, h⟩ := except_bind_ok h
        rcases ite_ok h with ⟨-, h⟩ | ⟨-, h⟩
        · obtain ⟨sc, -, h2⟩ := except_bind_ok h
          have h3 := Except.ok.inj h2
          exact (congrArg (fun t => t.2.1) h3).symm
        · cases ha1 : a1.asAddr with
          | none => rw [ha1] at h; exact Except.noConfusion h
          | some aa =>
            rw [ha1] at h
            obtain ⟨⟨cx2, b1, d2⟩, -, h⟩ := except_bind_ok h
            rcases ite_ok h with ⟨-, h⟩ | ⟨-, h⟩
            · obtain ⟨sc, -, h2⟩ := except_bind_ok h
              have h3 := Except.ok.inj h2
              exact (congrArg (fun t => t.2.1) h3).symm
            · cases hb1 : b1.asAddr with
              | none => rw [hb1] at h; exact Except.noConfusion h
              | some bb =>
                rw [hb1] at h
                obtain ⟨sc, -, h2⟩ := except_bind_ok h
                have h3 := Except.ok.inj h2
                exact (congrArg (fun t => t.2.1) h3).symm
    · -- compileConditionalBinop
      intro cx lhs rhs op a cx' n h
      obtain ⟨⟨cx1, n1, d1⟩, h1, h⟩ := except_bind_ok h
      have hn1 := ihE _ _ _ _ _ _ h1
      subst hn1
      cases op with
      | and =>
        obtain ⟨y, -, h⟩ := except_bind_ok h
        obtain ⟨⟨cx2, n2, d2⟩, h2, h⟩ := except_bind_ok h
        have hn2 := ihE _ _ _ _ _ _ h2
        obtain ⟨asm2, -, h3⟩ := except_bind_ok h
        have h4 := Except.ok.inj h3
        have h5 := (congrArg (fun t => t.2) h4).symm
        exact h5.trans hn2
      | or =>
        obtain ⟨y, -, h⟩ := except_bind_ok h
        obtain ⟨⟨cx2, n2, d2⟩, h2, h⟩ := except_bind_ok h
        have hn2 := ihE _ _ _ _ _ _ h2
        obtain ⟨asm2, -, h3⟩ := except_bind_ok h
        have h4 := Except.ok.inj h3
        have h5 := (congrArg (fun t => t.2) h4).symm
        exact h5.trans hn2
      | add =>
        obtain ⟨y, hy, -⟩ := except_bind_ok h
        exact Except.noConfusion hy
      | eq =>
        obtain ⟨y, hy, -⟩ := except_bind_ok h
        exact Except.noConfusion hy
    · -- blockFn
      intro cx b a cx' n d h
      obtain ⟨⟨cx1, n1, d1⟩, h1, h⟩ := except_bind_ok h
      have hn1 := ihW _ _ _ _ _ _ h1
      obtain ⟨sc, -, h2⟩ := except_bind_ok h
      have h3 := Except.ok.inj h2
      have h4 := (congrArg (fun t => t.2.1) h3).symm
      exact h4.trans hn1
    · -- blockWithoutScope
      intro cx b a cx' n d h
      obtain ⟨⟨cxs, dv⟩, -, h⟩ := except_bind_ok h
      obtain ⟨⟨cx2, n2⟩, hval, h⟩ := except_bind_ok h
      have hn2 : n2 = Needs.assigned a := by
        cases hbv : b.value with
        | some e =>
          rw [hbv] at hval
          rcases ite_ok hval with ⟨-, hval⟩ | ⟨-, hval⟩
          · have h3 := Except.ok.inj hval
            exact (congrArg (fun t => t.2) h3).symm
          · obtain ⟨⟨cxe, ne, de⟩, he, hp⟩ := except_bind_ok hval
            have hne := ihE _ _ _ _ _ _ he
            have h3 := Except.ok.inj hp
            have h4 := (congrArg (fun t => t.2) h3).symm
            exact h4.trans hne
        | none =>
          rw [hbv] at hval
          have h3 := Except.ok.inj hval
          exact (congrArg (fun t => t.2) h3).symm
      rcases ite_ok h with ⟨-, h⟩ | ⟨-, h⟩
      · exact Except.noConfusion h
      · have h3 := Except.ok.inj h
        have h4 := (congrArg (fun t => t.2.1) h3).symm
        exact h4.trans hn2
    · -- localFn
      intro cx l a cx' n d h
      obtain ⟨cxp, -, h2⟩ := except_bind_ok h
      have h3 := Except.ok.inj h2
      exact (congrArg (fun t => t.2.1) h3).symm

/-- Claim C4 (amended): when a `&&` or `||` expression is lowered into a
needs that carries an address, the lowering first lowers the LHS into that
needs (which stays pinned to the same address), then emits `JumpIfNot`
(for `&&`) or `JumpIf` (for `||`) on that address targeting the freshly
minted end label, then lowers the RHS into the same needs, and finally
places the end label at the resulting offset.  When the needs discards the
value the source instead returns after the LHS: no jump is emitted, the RHS
is skipped entirely and the end label is never placed (see the
counterexample). -/
theorem C4_short_circuit (fuel : Nat) (cx : Ctxt) (lhs rhs : Expr)
    (a : InstAddress) (op : BinOp) (hop : op = .and ∨ op = .or)
    (hsucc : ∃ q, expr (fuel + 3) cx (.binary op lhs rhs) (.assigned a) = .ok q) :
    ∃ cx₁ d₁ cx₂ d₂ r,
      expr (fuel + 3) cx (.binary op lhs rhs) (.assigned a) = .ok r ∧
      expr fuel
        { cx with asm := { cx.asm with nextLabel := cx.asm.nextLabel + 1 } }
        lhs (.assigned a) = .ok (cx₁, .assigned a, d₁) ∧
      expr fuel
        { cx₁ with
          asm :=
            cx₁.asm.push
              (match op with
               | .and => Inst.jumpIfNot a cx.asm.nextLabel
               | _ => Inst.jumpIf a cx.asm.nextLabel) }
        rhs (.assigned a) = .ok (cx₂, .assigned a, d₂) ∧
      r.1.asm.insts = cx₂.asm.insts ∧
      r.1.asm.placed =
        cx₂.asm.placed ++ [(cx.asm.nextLabel, cx₂.asm.insts.length)] ∧
      r.2.1 = .assigned a := by
  obtain ⟨q, hq⟩ := hsucc
  rcases hop with rfl | rfl
  · obtain ⟨⟨cxr, nr⟩, hc, hwrap⟩ := except_bind_ok hq
    obtain ⟨⟨cx₁, n₁, d₁⟩, hlhs, hc2⟩ := except_bind_ok hc
    have hn₁ := (needs_preserved fuel).1 _ _ _ _ _ _ hlhs
    subst hn₁
    obtain ⟨y, hyj, hc3⟩ := except_bind_ok hc2
    have hy : y = cx₁.asm.jumpIfNot a cx.asm.nextLabel := (Except.ok.inj hyj).symm
    subst hy
    obtain ⟨⟨cx₂, n₂, d₂⟩, hrhs, hc4⟩ := except_bind_ok hc3
    have hn₂ := (needs_preserved fuel).1 _ _ _ _ _ _ hrhs
    subst hn₂
    obtain ⟨asmF, hplace, hc5⟩ := except_bind_ok hc4
    rcases ite_ok hplace with ⟨-, hbad⟩ | ⟨-, hgood⟩
    · exact absurd hbad (by simp)
    · have hasmF := (Except.ok.inj hgood).symm
      subst hasmF
      have hcxr := Except.ok.inj hc5
      injection hcxr with hA hB
      subst hA
      subst hB
      have hq2 := Except.ok.inj hwrap
      subst hq2
      exact ⟨cx₁, d₁, cx₂, d₂, _, hq, hlhs, hrhs, rfl, rfl, rfl⟩
  · obtain ⟨⟨cxr, nr⟩, hc, hwrap⟩ := except_bind_ok hq
    obtain ⟨⟨cx₁, n₁, d₁⟩, hlhs, hc2⟩ := except_bind_ok hc
    have hn₁ := (needs_preserved fuel).1 _ _ _ _ _ _ hlhs
    subst hn₁
    obtain ⟨y, hyj, hc3⟩ := except_bind_ok hc2
    have hy : y = cx₁.asm.jumpIf a cx.asm.nextLabel := (Except.ok.inj hyj).symm
    subst hy
    obtain ⟨⟨cx₂, n₂, d₂⟩, hrhs, hc4⟩ := except_bind_ok hc3
    have hn₂ := (needs_preserved fuel).1 _ _ _ _ _ _ hrhs
    subst hn₂
    obtain ⟨asmF, hplace, hc5⟩ := except_bind_ok hc4
    rcases ite_ok hplace with ⟨-, hbad⟩ | ⟨-, hgood⟩
    · exact absurd hbad (by simp)
    · have hasmF := (Except.ok.inj hgood).symm
      subst hasmF
      have hcxr := Except.ok.inj hc5
      injection hcxr with hA hB
      subst hA
      subst hB
      have hq2 := Except.ok.inj hwrap
      subst hq2
      exact ⟨cx₁, d₁, cx₂, d₂, _, hq, hlhs, hrhs, rfl, rfl, rfl⟩

/-- Witness for C4: `true && false` lowered into the assigned address 9
emits the LHS store, the conditional jump on address 9 to label 0, the RHS
store, and places label 0 at offset 3. -/
theorem C4_short_circuit_witness :
    ∃ cx₁ d₁ cx₂ d₂ r,
      expr 4 Ctxt.initial (.binary .and (.lit (.bool true)) (.lit (.bool false)))
        (.assigned ⟨9⟩) = .ok r ∧
      expr 1
        { Ctxt.initial with asm := { Ctxt.initial.asm with
            nextLabel := Ctxt.initial.asm.nextLabel + 1 } }
        (.lit (.bool true)) (.assigned ⟨9⟩) = .ok (cx₁, .assigned ⟨9⟩, d₁) ∧
      expr 1
        { cx₁ with
          asm :=
            cx₁.asm.push
              (match BinOp.and with
               | .and => Inst.jumpIfNot ⟨9⟩ Ctxt.initial.asm.nextLabel
               | _ => Inst.jumpIf ⟨9⟩ Ctxt.initial.asm.nextLabel) }
        (.lit (.bool false)) (.assigned ⟨9⟩) = .ok (cx₂, .assigned ⟨9⟩, d₂) ∧
      r.1.asm.insts = cx₂.asm.insts ∧
      r.1.asm.placed =
        cx₂.asm.placed ++ [(Ctxt.initial.asm.nextLabel, cx₂.asm.insts.length)] ∧
      r.2.1 = .assigned ⟨9⟩ :=
  C4_short_circuit 1 Ctxt.initial (.lit (.bool true)) (.lit (.bool false)) ⟨9⟩
    .and (Or.inl rfl)
    ⟨(⟨⟨[.store (.bool true) (.addr ⟨9⟩), .jumpIfNot ⟨9⟩ 0,
          .store (.bool false) (.addr ⟨9⟩)], 1, [(0, 3)]⟩,
        ⟨0, [], 0, []⟩, [], 0⟩, .assigned ⟨9⟩, false), by
      simp [expr, exprBinary, compileConditionalBinop, litFn, BinOp.isConditional,
        Needs.tryAllocAddr, Needs.asAddr, AsmBuffer.newLabel, AsmBuffer.push,
        AsmBuffer.jumpIfNot, AsmBuffer.place, Ctxt.initial, Bind.bind, Except.bind,
        pure, Except.pure]⟩

/-- Counterexample for C4 as stated: `true && true` lowered into a
discarding needs succeeds, but emits no instructions at all — no `JumpIfNot`
is emitted, the RHS is never lowered, and the end label is never placed
(`compile_conditional_binop` returns early when the needs has no address,
assemble.rs:1489-1491). -/
theorem C4_short_circuit_counterexample :
    (expr 4 Ctxt.initial (.binary .and (.lit (.bool true)) (.lit (.bool true)))
        Needs.none).map (fun r => (r.1.asm.insts, r.1.asm.placed, r.2.1)) =
      .ok ([], [], Needs.none) := by
  simp [expr, exprBinary, compileConditionalBinop, litFn, BinOp.isConditional,
    Needs.tryAllocAddr, Needs.asAddr, AsmBuffer.newLabel, Ctxt.initial,
    Bind.bind, Except.bind, pure, Except.pure, Except.map]

/-- Witness for C7: a two-parameter constant function called with no
arguments fails with `UnsupportedArgumentCount { expected := 2,
actual := 0 }`. -/
theorem C7_const_fn_arity_witness :
    @callConstFn Nat Nat Nat [0, 1] 0 [] (fun _ => .ok 0) 0
      (fun i st => .ok (i, st)) (fun _ _ st => st) id =
      .error (.kind (.unsupportedArgumentCount 2 0)) :=
  @C7_const_fn_arity Nat Nat Nat [0, 1] 0 [] (fun _ => .ok 0) 0
    (fun i st => .ok (i, st)) (fun _ _ st => st) id (by decide)

end Rune
